import Mathlib

/-!
Shallow embedding of the BoxCast auto-downloader
(`Discord Notification Code/Church Autodownload.py`) and proofs about its
classification, destination-resolution, polling and idempotency logic.

Strings are modelled as `List Char`; instants are modelled as `Int` minutes
on the local-time axis, with minute 0 being 00:00 of a Monday, so that
Python's `weekday()` (Monday = 0 … Sunday = 6) is day-index mod 7.  The
UTC→local conversion (`astimezone(LOCAL_TZ)`) is the external time-zone
adapter; all classification in the source happens on the converted local
values, which is where the embedding starts.
-/

namespace Boxcast

/-- Characters treated as whitespace by Python's `str.split()` / `str.strip()`
(the ASCII whitespace set). -/
def isSpaceChar (c : Char) : Bool :=
  c = ' ' || c = '\t' || c = '\n' || c = '\r' || c = '\x0b' || c = '\x0c'

/-- The invalid-character set of `make_safe_filename`: `'<>:"/\\|?*'`. -/
def invalidChars : List Char := ['<', '>', ':', '"', '/', '\\', '|', '?', '*']

/-- Source `"".join("_" if c in invalid else c for c in name)` (first line of
`make_safe_filename`). -/
def replaceInvalid (s : List Char) : List Char :=
  s.map fun c => if c ∈ invalidChars then '_' else c

/-- Python `str.split()` with no argument: split on runs of whitespace,
discarding empty words.  `cur` is the word currently being read, reversed. -/
def pySplitGo (cur : List Char) : List Char → List (List Char)
  | [] => if cur.isEmpty then [] else [cur.reverse]
  | c :: rest =>
    if isSpaceChar c then
      if cur.isEmpty then pySplitGo [] rest
      else cur.reverse :: pySplitGo [] rest
    else pySplitGo (c :: cur) rest

/-- Source `safe.split()`. -/
def pySplit (s : List Char) : List (List Char) := pySplitGo [] s

/-- Source `" ".join(ws)`. -/
def joinBySpace : List (List Char) → List Char
  | [] => []
  | [w] => w
  | w :: ws => w ++ ' ' :: joinBySpace ws

/-- Python `str.strip()`: drop whitespace from both ends. -/
def pyStrip (s : List Char) : List Char :=
  ((s.dropWhile isSpaceChar).reverse.dropWhile isSpaceChar).reverse

/-- Source `make_safe_filename` (lines 175-178): replace each character of
`'<>:"/\\|?*'` with `'_'`, then `" ".join(safe.split()).strip()`. -/
def make_safe_filename (s : List Char) : List Char :=
  pyStrip (joinBySpace (pySplit (replaceInvalid s)))

/-! Section: Lemmas about the sanitizer -/

theorem pySplitGo_good (s : List Char) : ∀ cur : List Char,
    (∀ c ∈ cur, isSpaceChar c = false) →
    ∀ w ∈ pySplitGo cur s, w ≠ [] ∧ ∀ c ∈ w, isSpaceChar c = false := by
  induction s with
  | nil =>
    intro cur hcur w hw
    simp only [pySplitGo] at hw
    split at hw
    · simp at hw
    · next h =>
      have hcurne : cur ≠ [] := by
        intro hc; subst hc; simp at h
      simp only [List.mem_singleton] at hw
      subst hw
      refine ⟨by simpa using hcurne, ?_⟩
      intro c hc
      exact hcur c (List.mem_reverse.mp hc)
  | cons a rest ih =>
    intro cur hcur w hw
    simp only [pySplitGo] at hw
    by_cases ha : isSpaceChar a
    · rw [if_pos ha] at hw
      split at hw
      · exact ih [] (by simp) w hw
      · next h =>
        have hcurne : cur ≠ [] := by
          intro hc; subst hc; simp at h
        rcases List.mem_cons.mp hw with hw | hw
        · subst hw
          refine ⟨by simpa using hcurne, ?_⟩
          intro c hc
          exact hcur c (List.mem_reverse.mp hc)
        · exact ih [] (by simp) w hw
    · rw [if_neg ha] at hw
      refine ih (a :: cur) ?_ w hw
      intro c hc
      rcases List.mem_cons.mp hc with hc | hc
      · subst hc; simpa using ha
      · exact hcur c hc

theorem pySplitGo_mem (s : List Char) : ∀ cur w, w ∈ pySplitGo cur s →
    ∀ c ∈ w, c ∈ cur ∨ c ∈ s := by
  induction s with
  | nil =>
    intro cur w hw c hc
    simp only [pySplitGo] at hw
    split at hw
    · simp at hw
    · simp only [List.mem_singleton] at hw
      subst hw
      exact Or.inl (List.mem_reverse.mp hc)
  | cons a rest ih =>
    intro cur w hw c hc
    simp only [pySplitGo] at hw
    by_cases ha : isSpaceChar a
    · rw [if_pos ha] at hw
      split at hw
      · rcases ih [] w hw c hc with h | h
        · simp at h
        · exact Or.inr (List.mem_cons_of_mem _ h)
      · rcases List.mem_cons.mp hw with hw | hw
        · subst hw
          exact Or.inl (List.mem_reverse.mp hc)
        · rcases ih [] w hw c hc with h | h
          · simp at h
          · exact Or.inr (List.mem_cons_of_mem _ h)
    · rw [if_neg ha] at hw
      rcases ih (a :: cur) w hw c hc with h | h
      · rcases List.mem_cons.mp h with h | h
        · subst h; exact Or.inr (List.mem_cons_self _ _)
        · exact Or.inl h
      · exact Or.inr (List.mem_cons_of_mem _ h)

theorem pySplitGo_word (w : List Char) : ∀ cur rest,
    (∀ c ∈ w, isSpaceChar c = false) →
    pySplitGo cur (w ++ rest) = pySplitGo (w.reverse ++ cur) rest := by
  induction w with
  | nil => intro cur rest _; simp
  | cons a w ih =>
    intro cur rest hw
    have ha : isSpaceChar a = false := hw a (List.mem_cons_self _ _)
    simp only [List.cons_append, pySplitGo, ha, Bool.false_eq_true, if_false,
      List.append_eq]
    rw [ih (a :: cur) rest (fun c hc => hw c (List.mem_cons_of_mem _ hc))]
    simp [List.append_assoc]

theorem pySplit_joinBySpace (ws : List (List Char)) :
    (∀ w ∈ ws, w ≠ [] ∧ ∀ c ∈ w, isSpaceChar c = false) →
    pySplit (joinBySpace ws) = ws := by
  induction ws with
  | nil => intro _; rfl
  | cons w ws ih =>
    intro hws
    obtain ⟨hne, hnosp⟩ := hws w (List.mem_cons_self _ _)
    cases ws with
    | nil =>
      show pySplitGo [] (joinBySpace [w]) = [w]
      have : joinBySpace [w] = w ++ [] := by simp [joinBySpace]
      rw [this, pySplitGo_word w [] [] hnosp]
      simp only [List.append_nil, pySplitGo]
      rw [if_neg (by simpa using hne)]
      simp
    | cons w2 ws2 =>
      show pySplitGo [] (joinBySpace (w :: w2 :: ws2)) = w :: w2 :: ws2
      have hj : joinBySpace (w :: w2 :: ws2) = w ++ ' ' :: joinBySpace (w2 :: ws2) := rfl
      rw [hj, pySplitGo_word w [] _ hnosp]
      simp only [List.append_nil, pySplitGo]
      rw [if_pos (by decide), if_neg (by simpa using hne)]
      simp only [List.reverse_reverse]
      have := ih (fun u hu => hws u (List.mem_cons_of_mem _ hu))
      exact congrArg (w :: ·) this

theorem joinBySpace_mem (ws : List (List Char)) :
    ∀ c ∈ joinBySpace ws, c = ' ' ∨ ∃ w ∈ ws, c ∈ w := by
  induction ws with
  | nil => intro c hc; simp [joinBySpace] at hc
  | cons w ws ih =>
    intro c hc
    cases ws with
    | nil =>
      exact Or.inr ⟨w, List.mem_cons_self _ _, by simpa [joinBySpace] using hc⟩
    | cons w2 ws2 =>
      have hc' : c ∈ w ++ ' ' :: joinBySpace (w2 :: ws2) := hc
      rcases List.mem_append.mp hc' with h | h
      · exact Or.inr ⟨w, List.mem_cons_self _ _, h⟩
      · rcases List.mem_cons.mp h with h | h
        · exact Or.inl h
        · rcases ih c h with h | ⟨u, hu, hcu⟩
          · exact Or.inl h
          · exact Or.inr ⟨u, List.mem_cons_of_mem _ hu, hcu⟩

theorem joinBySpace_ne_nil (ws : List (List Char)) (w : List Char)
    (hne : w ≠ []) : joinBySpace (w :: ws) ≠ [] := by
  cases ws with
  | nil => simpa [joinBySpace] using hne
  | cons w2 ws2 =>
    show w ++ ' ' :: joinBySpace (w2 :: ws2) ≠ []
    simp

theorem dropWhile_eq_self_of_head (s : List Char)
    (h : ∀ c, s.head? = some c → isSpaceChar c = false) :
    s.dropWhile isSpaceChar = s := by
  cases s with
  | nil => rfl
  | cons a rest =>
    rw [List.dropWhile_cons, if_neg]
    simp [h a rfl]

theorem joinBySpace_head (ws : List (List Char))
    (hws : ∀ w ∈ ws, w ≠ [] ∧ ∀ c ∈ w, isSpaceChar c = false) :
    ∀ c, (joinBySpace ws).head? = some c → isSpaceChar c = false := by
  intro c hc
  cases ws with
  | nil => simp [joinBySpace] at hc
  | cons w ws2 =>
    obtain ⟨hne, hnosp⟩ := hws w (List.mem_cons_self _ _)
    have hw : (joinBySpace (w :: ws2)).head? = w.head? := by
      cases ws2 with
      | nil => rfl
      | cons w2 ws3 =>
        show (w ++ ' ' :: joinBySpace (w2 :: ws3)).head? = w.head?
        cases w with
        | nil => exact absurd rfl hne
        | cons a rest => rfl
    rw [hw] at hc
    exact hnosp c (List.mem_of_mem_head? hc)

theorem joinBySpace_getLast (ws : List (List Char))
    (hws : ∀ w ∈ ws, w ≠ [] ∧ ∀ c ∈ w, isSpaceChar c = false) :
    ∀ c, (joinBySpace ws).getLast? = some c → isSpaceChar c = false := by
  induction ws with
  | nil => intro c hc; simp [joinBySpace] at hc
  | cons w ws2 ih =>
    intro c hc
    obtain ⟨hne, hnosp⟩ := hws w (List.mem_cons_self _ _)
    cases ws2 with
    | nil =>
      have hlast : w.getLast? = some c := by simpa [joinBySpace] using hc
      obtain ⟨hne', heq⟩ :=
        List.mem_getLast?_eq_getLast (Option.mem_def.mpr hlast)
      exact heq ▸ hnosp _ (List.getLast_mem hne')
    | cons w2 ws3 =>
      have hj : joinBySpace (w :: w2 :: ws3) = w ++ ' ' :: joinBySpace (w2 :: ws3) := rfl
      rw [hj, List.getLast?_append_cons] at hc
      have h2 := hws w2 (List.mem_cons_of_mem _ (List.mem_cons_self _ _))
      have hne2 : joinBySpace (w2 :: ws3) ≠ [] := joinBySpace_ne_nil _ _ h2.1
      refine ih (fun u hu => hws u (List.mem_cons_of_mem _ hu)) c ?_
      cases hjj : joinBySpace (w2 :: ws3) with
      | nil => exact absurd hjj hne2
      | cons b t =>
        rw [hjj, List.getLast?_cons_cons] at hc
        exact hc

theorem pyStrip_of_good (s : List Char)
    (hh : ∀ c, s.head? = some c → isSpaceChar c = false)
    (hl : ∀ c, s.getLast? = some c → isSpaceChar c = false) :
    pyStrip s = s := by
  unfold pyStrip
  rw [dropWhile_eq_self_of_head s hh]
  rw [dropWhile_eq_self_of_head s.reverse (by
    intro c hc
    rw [List.head?_reverse] at hc
    exact hl c hc)]
  exact List.reverse_reverse s

theorem replaceInvalid_mem (s : List Char) :
    ∀ c ∈ replaceInvalid s, c ∉ invalidChars := by
  intro c hc
  simp only [replaceInvalid, List.mem_map] at hc
  obtain ⟨a, _, ha⟩ := hc
  by_cases h : a ∈ invalidChars
  · rw [if_pos h] at ha; subst ha; decide
  · rw [if_neg h] at ha; subst ha; exact h

theorem replaceInvalid_eq_self (s : List Char)
    (h : ∀ c ∈ s, c ∉ invalidChars) : replaceInvalid s = s := by
  unfold replaceInvalid
  rw [List.map_congr_left (fun c hc => if_neg (h c hc))]
  exact List.map_id s

theorem make_safe_filename_eq (s : List Char) :
    make_safe_filename s = joinBySpace (pySplit (replaceInvalid s)) := by
  unfold make_safe_filename
  have hgood := pySplitGo_good (replaceInvalid s) [] (by simp)
  exact pyStrip_of_good _ (joinBySpace_head _ hgood) (joinBySpace_getLast _ hgood)

theorem make_safe_filename_no_invalid (s : List Char) :
    ∀ c ∈ make_safe_filename s, c ∉ invalidChars := by
  intro c hc
  rw [make_safe_filename_eq] at hc
  rcases joinBySpace_mem _ c hc with h | ⟨w, hw, hcw⟩
  · subst h; decide
  · rcases pySplitGo_mem (replaceInvalid s) [] w hw c hcw with h | h
    · simp at h
    · exact replaceInvalid_mem s c h

theorem make_safe_filename_idem (s : List Char) :
    make_safe_filename (make_safe_filename s) = make_safe_filename s := by
  have hgood : ∀ w ∈ pySplit (replaceInvalid s),
      w ≠ [] ∧ ∀ c ∈ w, isSpaceChar c = false :=
    pySplitGo_good (replaceInvalid s) [] (by simp)
  rw [make_safe_filename_eq s, make_safe_filename_eq]
  rw [replaceInvalid_eq_self _ (by
    intro c hc
    have := make_safe_filename_no_invalid s c (by rwa [make_safe_filename_eq s])
    exact this)]
  rw [pySplit_joinBySpace _ hgood]

/-- C6: sanitization is idempotent and its output never contains a character
of `'<>:"/\\|?*'`; concretely, `make_safe_filename "a<b:  c?" = "a_b_ c_"`. -/
theorem C6_sanitize_idempotent_no_invalid (s : List Char) :
    make_safe_filename (make_safe_filename s) = make_safe_filename s ∧
    (make_safe_filename s).all (fun c => !invalidChars.contains c) = true ∧
    make_safe_filename ("a<b:  c?".data) = "a_b_ c_".data := by
  refine ⟨make_safe_filename_idem s, ?_, by decide⟩
  rw [List.all_eq_true]
  intro c hc
  have := make_safe_filename_no_invalid s c hc
  simpa using this

/-! Section: Interval arithmetic and the local-time model

Instants are `Int` minutes on the local-time axis; minute 0 is 00:00 of a
Monday, matching Python's `weekday()` convention Monday = 0 … Sunday = 6. -/

/-- Source `interval_overlaps` (lines 171-172):
`a_start < b_end and a_end > b_start`. -/
def interval_overlaps (aStart aEnd bStart bEnd : Int) : Bool :=
  decide (aStart < bEnd) && decide (aEnd > bStart)

/-- Source `local_start.date()` as a day index. -/
def dayIndex (t : Int) : Int := t.fdiv 1440

/-- Python `datetime.weekday()`: Monday = 0 … Sunday = 6. -/
def weekday (t : Int) : Int := (dayIndex t).emod 7

/-- Source `datetime.combine(t.date(), dtime(h, m))` in minutes. -/
def combine (t h m : Int) : Int := 1440 * dayIndex t + 60 * h + m

/-- The broadcast's local end: `stops_at` converted when present, else
`local_start + timedelta(hours=2)`. -/
def localEndOf (localStart : Int) (endOpt : Option Int) : Int :=
  match endOpt with
  | some e => e
  | none => localStart + 120

/-- Python `pat in s` on lowercase character lists. -/
def pyIn (pat : List Char) : List Char → Bool
  | [] => pat.isEmpty
  | c :: rest => pat.isPrefixOf (c :: rest) || pyIn pat rest

/-! Section: Sunday routing and the classifier -/

/-- The three Sunday-morning subfolders of `pick_sunday_folder_and_filename`. -/
inductive SundaySlot
  | firstService
  | sundaySchool
  | secondService
  deriving DecidableEq

/-- The subfolder decision of `pick_sunday_folder_and_filename` (source lines
297-342): on a Sunday, the first of the windows [00:00,10:00), [10:00,10:50),
[10:50,13:00) that the broadcast's own local interval overlaps. -/
def pick_sunday_subfolder (localStart : Int) (endOpt : Option Int) :
    Option SundaySlot :=
  let localEnd := localEndOf localStart endOpt
  if weekday localStart = 6 then
    if interval_overlaps localStart localEnd
        (combine localStart 0 0) (combine localStart 10 0) then
      some SundaySlot.firstService
    else if interval_overlaps localStart localEnd
        (combine localStart 10 0) (combine localStart 10 50) then
      some SundaySlot.sundaySchool
    else if interval_overlaps localStart localEnd
        (combine localStart 10 50) (combine localStart 13 0) then
      some SundaySlot.secondService
    else none
  else none

/-- Source `detect_holiday` (lines 181-192). -/
def detect_holiday (nameLower : List Char) : Option (List Char) :=
  if pyIn "easter".data nameLower then some "Easter".data
  else if pyIn "thanksgiving eve".data nameLower then some "Thanksgiving Eve".data
  else if pyIn "christmas eve".data nameLower then some "Christmas Eve".data
  else if pyIn "good friday".data nameLower then some "Good Friday".data
  else if pyIn "new year".data nameLower then some "New Year".data
  else none

/-- The closed set of categories `main` can report for a broadcast. -/
inductive Category
  | youthSkip
  | memorial
  | wedding
  | christmasAnnual
  | holiday
  | specialService
  | firstService
  | sundaySchool
  | secondService
  | wednesday
  | sundayNight
  | uncategorized
  deriving DecidableEq

/-- The category `main` assigns to one broadcast (source lines 747-849):
`special_category` when a name/time rule sets it, else the Sunday subfolder,
else uncategorized.  `youthSkip` is the full skip at line 748.  The Wednesday
check precedes the Sunday-subfolder read-off here; that matches the source
because a weekday cannot be both 2 (Wednesday) and 6 (Sunday). -/
def classify (name : List Char) (localStart : Int) (endOpt : Option Int) :
    Category :=
  let nameLower := name.map Char.toLower
  let localEnd := localEndOf localStart endOpt
  let sundaySub := pick_sunday_subfolder localStart endOpt
  if pyIn "youth service".data nameLower then Category.youthSkip
  else if pyIn "memorial".data nameLower then Category.memorial
  else if pyIn "wedding".data nameLower then Category.wedding
  else if pyIn "christmas at carbondale".data nameLower then Category.christmasAnnual
  else if (detect_holiday nameLower).isSome then Category.holiday
  else if pyIn "special service".data nameLower || pyIn "revival".data nameLower
      || pyIn "missions service".data nameLower then Category.specialService
  else if weekday localStart = 2 ∧ interval_overlaps localStart localEnd
      (combine localStart 18 0) (combine localStart 21 0) then Category.wednesday
  else if sundaySub = none ∧ weekday localStart = 6 ∧
      (pyIn "sunday night".data nameLower = true ∨ interval_overlaps localStart localEnd
        (combine localStart 17 0) (combine localStart 22 0) = true) then
    Category.sundayNight
  else
    match sundaySub with
    | some SundaySlot.firstService => Category.firstService
    | some SundaySlot.sundaySchool => Category.sundaySchool
    | some SundaySlot.secondService => Category.secondService
    | none => Category.uncategorized

/-- C5: the overlap test is exactly `aStart < bEnd AND aEnd > bStart`
(half-open semantics): [09:00,10:00) and [10:00,11:00) in minutes do not
overlap, [09:59,10:01) and [10:00,10:50) do. -/
theorem C5_interval_overlaps_spec (aStart aEnd bStart bEnd : Int) :
    (interval_overlaps aStart aEnd bStart bEnd = true ↔
      aStart < bEnd ∧ aEnd > bStart) ∧
    interval_overlaps 540 600 600 660 = false ∧
    interval_overlaps 599 601 600 650 = true := by
  refine ⟨?_, by decide, by decide⟩
  simp [interval_overlaps]

/-- C4: on a Sunday the subfolder is decided by the first of the windows
[00:00,10:00), [10:00,10:50), [10:50,13:00) that the broadcast's own local
interval overlaps, in that order; a 2-hour broadcast starting 09:59 is
first-service, 10:00 exactly is sunday-school, 10:50 is second-service. -/
theorem C4_sunday_window_order (localStart : Int) (endOpt : Option Int) :
    (weekday localStart = 6 →
      (interval_overlaps localStart (localEndOf localStart endOpt)
          (combine localStart 0 0) (combine localStart 10 0) = true →
        pick_sunday_subfolder localStart endOpt = some SundaySlot.firstService) ∧
      (interval_overlaps localStart (localEndOf localStart endOpt)
          (combine localStart 0 0) (combine localStart 10 0) = false →
        interval_overlaps localStart (localEndOf localStart endOpt)
          (combine localStart 10 0) (combine localStart 10 50) = true →
        pick_sunday_subfolder localStart endOpt = some SundaySlot.sundaySchool) ∧
      (interval_overlaps localStart (localEndOf localStart endOpt)
          (combine localStart 0 0) (combine localStart 10 0) = false →
        interval_overlaps localStart (localEndOf localStart endOpt)
          (combine localStart 10 0) (combine localStart 10 50) = false →
        interval_overlaps localStart (localEndOf localStart endOpt)
          (combine localStart 10 50) (combine localStart 13 0) = true →
        pick_sunday_subfolder localStart endOpt = some SundaySlot.secondService)) ∧
    pick_sunday_subfolder (6 * 1440 + 599) none = some SundaySlot.firstService ∧
    pick_sunday_subfolder (6 * 1440 + 600) none = some SundaySlot.sundaySchool ∧
    pick_sunday_subfolder (6 * 1440 + 650) none = some SundaySlot.secondService ∧
    classify "Morning Worship".data (6 * 1440 + 599) none = Category.firstService ∧
    classify "Morning Worship".data (6 * 1440 + 600) none = Category.sundaySchool ∧
    classify "Morning Worship".data (6 * 1440 + 650) none = Category.secondService := by
  refine ⟨?_, by decide, by decide, by decide, by decide, by decide, by decide⟩
  intro h6
  refine ⟨fun h1 => ?_, fun h1 h2 => ?_, fun h1 h2 h3 => ?_⟩
  · simp [pick_sunday_subfolder, h6, h1]
  · simp [pick_sunday_subfolder, h6, h1, h2]
  · simp [pick_sunday_subfolder, h6, h1, h2, h3]

/-- Witness for C4 at the concrete Sunday 09:59 broadcast. -/
theorem C4_sunday_window_order_witness :
    pick_sunday_subfolder (6 * 1440 + 599) none = some SundaySlot.firstService :=
  ((C4_sunday_window_order (6 * 1440 + 599) none).1 (by decide)).1 (by decide)

/-- C3: name-based rules fire first, in the order youth, memorial, wedding,
christmas-annual, holiday, special-service; only when all of them miss is the
category time-determined.  In particular any name containing "memorial"
(case-insensitive, youth not matching) is memorial, and the broadcast
"Easter Memorial Service" on Sunday 09:00 local is memorial even though its
holiday keyword and the first-service window both match. -/
theorem C3_classifier_precedence (name : List Char) (localStart : Int)
    (endOpt : Option Int) :
    (pyIn "youth service".data (name.map Char.toLower) = true →
      classify name localStart endOpt = Category.youthSkip) ∧
    (pyIn "youth service".data (name.map Char.toLower) = false →
      pyIn "memorial".data (name.map Char.toLower) = true →
      classify name localStart endOpt = Category.memorial) ∧
    (pyIn "youth service".data (name.map Char.toLower) = false →
      pyIn "memorial".data (name.map Char.toLower) = false →
      pyIn "wedding".data (name.map Char.toLower) = true →
      classify name localStart endOpt = Category.wedding) ∧
    (pyIn "youth service".data (name.map Char.toLower) = false →
      pyIn "memorial".data (name.map Char.toLower) = false →
      pyIn "wedding".data (name.map Char.toLower) = false →
      pyIn "christmas at carbondale".data (name.map Char.toLower) = true →
      classify name localStart endOpt = Category.christmasAnnual) ∧
    (pyIn "youth service".data (name.map Char.toLower) = false →
      pyIn "memorial".data (name.map Char.toLower) = false →
      pyIn "wedding".data (name.map Char.toLower) = false →
      pyIn "christmas at carbondale".data (name.map Char.toLower) = false →
      (detect_holiday (name.map Char.toLower)).isSome = true →
      classify name localStart endOpt = Category.holiday) ∧
    (pyIn "youth service".data (name.map Char.toLower) = false →
      pyIn "memorial".data (name.map Char.toLower) = false →
      pyIn "wedding".data (name.map Char.toLower) = false →
      pyIn "christmas at carbondale".data (name.map Char.toLower) = false →
      (detect_holiday (name.map Char.toLower)).isSome = false →
      (pyIn "special service".data (name.map Char.toLower)
        || pyIn "revival".data (name.map Char.toLower)
        || pyIn "missions service".data (name.map Char.toLower)) = true →
      classify name localStart endOpt = Category.specialService) ∧
    (pyIn "youth service".data (name.map Char.toLower) = false →
      pyIn "memorial".data (name.map Char.toLower) = false →
      pyIn "wedding".data (name.map Char.toLower) = false →
      pyIn "christmas at carbondale".data (name.map Char.toLower) = false →
      (detect_holiday (name.map Char.toLower)).isSome = false →
      (pyIn "special service".data (name.map Char.toLower)
        || pyIn "revival".data (name.map Char.toLower)
        || pyIn "missions service".data (name.map Char.toLower)) = false →
      classify name localStart endOpt = Category.wednesday ∨
      classify name localStart endOpt = Category.firstService ∨
      classify name localStart endOpt = Category.sundaySchool ∨
      classify name localStart endOpt = Category.secondService ∨
      classify name localStart endOpt = Category.sundayNight ∨
      classify name localStart endOpt = Category.uncategorized) ∧
    (classify "Easter Memorial Service".data (6 * 1440 + 540) none =
        Category.memorial ∧
      (detect_holiday ("Easter Memorial Service".data.map Char.toLower)).isSome
        = true ∧
      pick_sunday_subfolder (6 * 1440 + 540) none =
        some SundaySlot.firstService) := by
  refine ⟨fun h1 => ?_, fun h1 h2 => ?_, fun h1 h2 h3 => ?_,
    fun h1 h2 h3 h4 => ?_, fun h1 h2 h3 h4 h5 => ?_,
    fun h1 h2 h3 h4 h5 h6 => ?_, fun h1 h2 h3 h4 h5 h6 => ?_,
    ⟨by decide, by decide, by decide⟩⟩
  · simp [classify, h1]
  · simp [classify, h1, h2]
  · simp [classify, h1, h2, h3]
  · simp [classify, h1, h2, h3, h4]
  · simp [classify, h1, h2, h3, h4, h5]
  · simp [classify, h1, h2, h3, h4, h5, h6]
  · simp only [classify, h1, h2, h3, h4, h5, h6, Bool.false_eq_true, if_false]
    split
    · exact Or.inl rfl
    · split
      · exact Or.inr (Or.inr (Or.inr (Or.inr (Or.inl rfl))))
      · split
        · exact Or.inr (Or.inl rfl)
        · exact Or.inr (Or.inr (Or.inl rfl))
        · exact Or.inr (Or.inr (Or.inr (Or.inl rfl)))
        · exact Or.inr (Or.inr (Or.inr (Or.inr (Or.inr rfl))))

/-- Witness for C3 at the concrete "Easter Memorial Service" broadcast. -/
theorem C3_classifier_precedence_witness :
    classify "Easter Memorial Service".data (6 * 1440 + 540) none =
      Category.memorial :=
  (C3_classifier_precedence "Easter Memorial Service".data (6 * 1440 + 540)
    none).2.1 (by decide) (by decide)

/-! Section: Destination resolution -/

/-- Decimal rendering of an integer, as Python string formatting does. -/
def intStr (n : Int) : List Char := (toString n).data

/-- Source `f"{local_start:%Y-%m-%d}"`: the broadcast's local date.  Rendered through
the injective day index; the Gregorian triple rendering belongs to the
external `datetime` adapter and no downstream logic inspects its shape. -/
def dateStr (t : Int) : List Char := "D".data ++ intStr (dayIndex t)

/-- Source `local_start.year` through the external calendar adapter (rendered as a
365-day approximation over the day index; no claim depends on its value). -/
def yearOf (t : Int) : Int := 1970 + (dayIndex t).fdiv 365

/-- A file on the NAS: (directory, filename). -/
abbrev Path := List Char × List Char

/-- Source `os.path.join` of a directory and a name. -/
def joinDir (d name : List Char) : List Char := d ++ "/".data ++ name

/-- Source `BASE_DIR = "/mnt/synology"`. -/
def BASE_DIR : List Char := "/mnt/synology".data

/-- Source `os.listdir d` for a disk modelled as a list of (directory, filename)
pairs. -/
def listdir (disk : List Path) (d : List Char) : List (List Char) :=
  (disk.filter fun p => decide (p.1 = d)).map Prod.snd

/-- Source `f.lower().endswith(".mp4")`. -/
def isMp4 (f : List Char) : Bool :=
  List.isSuffixOf ".mp4".data (f.map Char.toLower)

/-- Source `compute_christmas_at_carbondale_filename` (lines 345-357):
`files` is the destination directory's listing, `os.path.exists` is
membership in it. -/
def compute_christmas_at_carbondale_filename (files : List (List Char))
    (year : Int) : List Char :=
  let base := intStr year ++ " Christmas At Carbondale".data
  if (base ++ ".mp4".data) ∉ files then base ++ ".mp4".data
  else
    let existing := files.filter fun f => base.isPrefixOf f && isMp4 f
    let num_services := existing.length
    let next_index := num_services + 1
    base ++ " Service ".data ++ intStr next_index ++ ".mp4".data

/-- Destination resolution of `main` (source lines 752-861): the
(directory, filename) pair the download targets, per category.  The category
is computed by `classify`, whose branch structure mirrors the same lines. -/
def resolveOutfile (disk : List Path) (name : List Char) (localStart : Int)
    (endOpt : Option Int) : Path × Category :=
  let nameLower := name.map Char.toLower
  let cat := classify name localStart endOpt
  match cat with
  | Category.memorial =>
    ((joinDir BASE_DIR "Memorial Services".data,
      make_safe_filename name ++ ".mp4".data), cat)
  | Category.wedding =>
    ((joinDir BASE_DIR "Weddings".data,
      make_safe_filename (dateStr localStart ++ " - ".data ++ name)
        ++ ".mp4".data), cat)
  | Category.christmasAnnual =>
    let d := joinDir BASE_DIR "Christmas At Carbondale".data
    ((d, compute_christmas_at_carbondale_filename (listdir disk d)
        (yearOf localStart)), cat)
  | Category.holiday =>
    ((joinDir BASE_DIR "Special Services".data,
      intStr (yearOf localStart) ++ " ".data
        ++ (detect_holiday nameLower).getD [] ++ ".mp4".data), cat)
  | Category.specialService =>
    ((joinDir BASE_DIR "Special Services".data,
      make_safe_filename (dateStr localStart ++ " - ".data ++ name)
        ++ ".mp4".data), cat)
  | Category.wednesday =>
    ((joinDir BASE_DIR "Wednesday".data, dateStr localStart ++ ".mp4".data), cat)
  | Category.sundayNight =>
    ((joinDir BASE_DIR "Sunday Night".data, dateStr localStart ++ ".mp4".data), cat)
  | Category.firstService =>
    ((joinDir BASE_DIR "1st Service".data, dateStr localStart ++ ".mp4".data), cat)
  | Category.sundaySchool =>
    ((joinDir BASE_DIR "Sunday School".data, dateStr localStart ++ ".mp4".data), cat)
  | Category.secondService =>
    ((joinDir BASE_DIR "2nd Service".data, dateStr localStart ++ ".mp4".data), cat)
  | Category.uncategorized =>
    ((joinDir BASE_DIR "Uncategorized".data,
      make_safe_filename (dateStr localStart ++ " - ".data ++ name)
        ++ ".mp4".data), cat)
  | Category.youthSkip => ((BASE_DIR, dateStr localStart ++ ".mp4".data), cat)

/-! Section: The download state machine -/

/-- Result of one HTTP call: success, an `HTTPError` raised by
`raise_for_status` (with status code), or a non-HTTP exception (connection
failure etc., which `except HTTPError` does not catch). -/
inductive ApiResult (α : Type)
  | ok (a : α)
  | httpError (code : Nat)
  | netError
  deriving DecidableEq

/-- One broadcast of the listing plus the responses the remote collaborator
would give this run at each call site. -/
structure BroadcastJob where
  name : List Char
  localStart : Int
  endOpt : Option Int
  detailResp : ApiResult (Option (List Char))
  exportResp : ApiResult Unit
  pollResps : Nat → ApiResult (List Char)
  downloadResp : ApiResult Unit

/-- Observable side effects of (part of) a run. -/
structure Effects where
  apiCalls : Nat
  exports : List (List Char)
  writes : List Path
  notifs : Nat
  deriving DecidableEq

/-- No effects. -/
def Effects.zero : Effects := ⟨0, [], [], 0⟩

/-- Sequential accumulation of effects. -/
def Effects.add (e f : Effects) : Effects :=
  ⟨e.apiCalls + f.apiCalls, e.exports ++ f.exports, e.writes ++ f.writes,
    e.notifs + f.notifs⟩

/-- Source `state["downloaded_recordings"]` lookup (first match wins, matching dict
update-by-cons). -/
def ledgerLookup : List (List Char × Path) → List Char → Option Path
  | [], _ => none
  | (k, v) :: rest, rid => if k = rid then some v else ledgerLookup rest rid

/-- How the loop reacts to one polled `download_status` value
(source lines 910-940): exactly `"ready"` starts the download, a status
beginning `"failed"` is terminal failure, anything else sleeps and re-polls. -/
inductive PollStep
  | downloadNow
  | failNow
  | keepPolling
  deriving DecidableEq

/-- The status dispatch of the poll loop body. -/
def poll_step (status : List Char) : PollStep :=
  if status = "ready".data then PollStep.downloadNow
  else if List.isPrefixOf "failed".data status then PollStep.failNow
  else PollStep.keepPolling

/-- The first terminal dispatch within the first `n` polls of a status
stream; `none` while every status seen so far keeps the loop polling. -/
def pollFirst (statuses : Nat → List Char) : Nat → Option PollStep
  | 0 => none
  | n + 1 =>
    match pollFirst statuses n with
    | some o => some o
    | none =>
      match poll_step (statuses n) with
      | PollStep.keepPolling => none
      | o => some o

/-- Per-broadcast terminal outcomes of `main`'s loop body. -/
inductive Outcome
  | skippedCutoff
  | skippedYouth
  | skippedDisk
  | skippedNoRid
  | skippedLedger
  | exportFailed
  | downloaded
  | pollFailed
  deriving DecidableEq

/-- Result of processing one broadcast: normal completion (updated disk,
ledger, effects, outcome); an uncaught exception aborting the whole run; or
a poll loop still running after the modelled number of polls. -/
inductive StepResult
  | done (disk : List Path) (ledger : List (List Char × Path)) (eff : Effects)
      (out : Outcome)
  | aborted (eff : Effects)
  | hung (eff : Effects)
  deriving DecidableEq

/-- The poll loop (source lines 902-940) observed for `fuel` iterations
starting at poll index `i`.  Each iteration polls once (one API call, not
wrapped in try/except, so any error aborts the run); `"ready"` performs the
file GET and the chunked write (a mid-stream failure, which on the real
system can leave a partial file, is modelled as the abort it raises);
`"failed*"` breaks with failure; anything else loops. -/
def pollLoop (job : BroadcastJob) (outfile : Path) (disk : List Path)
    (ledger : List (List Char × Path)) (rid : List Char) :
    Nat → Nat → Effects → StepResult
  | 0, _, eff => StepResult.hung eff
  | fuel + 1, i, eff =>
    let eff1 : Effects := ⟨eff.apiCalls + 1, eff.exports, eff.writes, eff.notifs⟩
    match job.pollResps i with
    | ApiResult.httpError _ => StepResult.aborted eff1
    | ApiResult.netError => StepResult.aborted eff1
    | ApiResult.ok status =>
      match poll_step status with
      | PollStep.downloadNow =>
        let eff2 : Effects :=
          ⟨eff1.apiCalls + 1, eff1.exports, eff1.writes, eff1.notifs⟩
        match job.downloadResp with
        | ApiResult.ok _ =>
          StepResult.done (outfile :: disk) ((rid, outfile) :: ledger)
            ⟨eff2.apiCalls, eff2.exports, eff2.writes ++ [outfile], eff2.notifs⟩
            Outcome.downloaded
        | ApiResult.httpError _ => StepResult.aborted eff2
        | ApiResult.netError => StepResult.aborted eff2
      | PollStep.failNow => StepResult.done disk ledger eff1 Outcome.pollFailed
      | PollStep.keepPolling =>
        pollLoop job outfile disk ledger rid fuel (i + 1) eff1

/-- One iteration of `main`'s per-broadcast loop (source lines 732-940):
START_DATE cutoff, youth skip, destination resolution (with the
uncategorized notification), disk-existence skip, detail fetch (one API
call, unprotected), missing-recording-id skip, ledger skip, the export POST
(only `HTTPError` is caught: 409 proceeds, other codes abandon the
broadcast, a connection error propagates), then the poll loop. -/
def processBroadcast (cutoff : Int) (fuel : Nat) (disk : List Path)
    (ledger : List (List Char × Path)) (job : BroadcastJob) : StepResult :=
  if job.localStart < cutoff then
    StepResult.done disk ledger Effects.zero Outcome.skippedCutoff
  else if pyIn "youth service".data (job.name.map Char.toLower) then
    StepResult.done disk ledger Effects.zero Outcome.skippedYouth
  else
    let rc := resolveOutfile disk job.name job.localStart job.endOpt
    let outfile := rc.1
    let eff0 : Effects :=
      if rc.2 = Category.uncategorized then ⟨0, [], [], 1⟩ else Effects.zero
    if outfile ∈ disk then StepResult.done disk ledger eff0 Outcome.skippedDisk
    else
      let eff1 : Effects := ⟨eff0.apiCalls + 1, eff0.exports, eff0.writes, eff0.notifs⟩
      match job.detailResp with
      | ApiResult.httpError _ => StepResult.aborted eff1
      | ApiResult.netError => StepResult.aborted eff1
      | ApiResult.ok none => StepResult.done disk ledger eff1 Outcome.skippedNoRid
      | ApiResult.ok (some rid) =>
        match ledgerLookup ledger rid with
        | some _ => StepResult.done disk ledger eff1 Outcome.skippedLedger
        | none =>
          let eff2 : Effects :=
            ⟨eff1.apiCalls + 1, eff1.exports ++ [rid], eff1.writes, eff1.notifs⟩
          match job.exportResp with
          | ApiResult.ok _ => pollLoop job outfile disk ledger rid fuel 0 eff2
          | ApiResult.httpError code =>
            if code = 409 then pollLoop job outfile disk ledger rid fuel 0 eff2
            else StepResult.done disk ledger eff2 Outcome.exportFailed
          | ApiResult.netError => StepResult.aborted eff2

/-- Result of the whole download portion of a run. -/
inductive RunResult
  | finished (disk : List Path) (ledger : List (List Char × Path))
      (eff : Effects) (outs : List Outcome)
  | aborted (eff : Effects)
  | hung (eff : Effects)
  deriving DecidableEq

/-- Source `main` broadcast loop (lines 732-949) over the listed jobs,
followed by the run-summary notification (`send_run_summary`, always sent on
normal completion, even with zero downloads). -/
def runJobs (cutoff : Int) (fuel : Nat) :
    List Path → List (List Char × Path) → Effects → List Outcome →
    List BroadcastJob → RunResult
  | disk, ledger, eff, outs, [] =>
    RunResult.finished disk ledger (eff.add ⟨0, [], [], 1⟩) outs.reverse
  | disk, ledger, eff, outs, job :: rest =>
    match processBroadcast cutoff fuel disk ledger job with
    | StepResult.done d l e o =>
      runJobs cutoff fuel d l (eff.add e) (o :: outs) rest
    | StepResult.aborted e => RunResult.aborted (eff.add e)
    | StepResult.hung e => RunResult.hung (eff.add e)

/-- The download portion of `main` (source lines 714-953): the listing call
(one API call, not wrapped in try/except — a failure propagates and the
summary is never sent), then the per-broadcast loop and the summary. -/
def mainRun (cutoff : Int) (fuel : Nat) (disk : List Path)
    (ledger : List (List Char × Path))
    (listResp : ApiResult (List BroadcastJob)) : RunResult :=
  match listResp with
  | ApiResult.ok jobs => runJobs cutoff fuel disk ledger ⟨1, [], [], 0⟩ [] jobs
  | ApiResult.httpError _ => RunResult.aborted ⟨1, [], [], 0⟩
  | ApiResult.netError => RunResult.aborted ⟨1, [], [], 0⟩

/-! Section: Periodic gates (daily schedule check, weekly analytics) -/

/-- The gating slice of the persisted state document: the last local
calendar dates (as day indices) the daily schedule check and the weekly
analytics ran. -/
structure GateState where
  last_schedule_check_date : Option Int
  last_analytics_date : Option Int
  deriving DecidableEq

/-- The windows `check_expected_schedule` expects on one day (source lines
470-500): Sunday [00:00,10:00) and [10:50,13:00), Wednesday [18:00,21:00). -/
def expectedWindows (day : Int) : List (Int × Int) :=
  if day.emod 7 = 6 then
    [(1440 * day, 1440 * day + 600), (1440 * day + 650, 1440 * day + 780)]
  else if day.emod 7 = 2 then [(1440 * day + 1080, 1440 * day + 1260)]
  else []

/-- The expected slots with no overlapping broadcast in the next 7 days. -/
def missingSlots (today : Int) (intervals : List (Int × Int)) :
    List (Int × Int) :=
  ((List.range 7).map fun i => today + (i : Int)).flatMap fun day =>
    (expectedWindows day).filter fun w =>
      !intervals.any fun p => interval_overlaps p.1 p.2 w.1 w.2

/-- Source `check_expected_schedule` (lines 424-515): gated on
`last_schedule_check_date`; one listing call whose failure degrades to an
empty list; each broadcast's interval is its local start plus an assumed 2
hours; one notification if any expected slot is missing; finally today's
date is recorded. -/
def check_expected_schedule (today : Int) (fetch : ApiResult (List Int))
    (st : GateState) : GateState × Effects :=
  if st.last_schedule_check_date = some today then (st, Effects.zero)
  else
    let future :=
      match fetch with
      | ApiResult.ok bs => bs
      | ApiResult.httpError _ => []
      | ApiResult.netError => []
    let intervals := future.map fun s => (s, s + 120)
    let missing := missingSlots today intervals
    let notifCount := if missing = [] then 0 else 1
    (⟨some today, st.last_analytics_date⟩, ⟨1, [], [], notifCount⟩)

/-- Source `weekly_analytics` (lines 520-685): runs only on Monday, gated on
`last_analytics_date`; one listing call whose failure degrades to an empty
list; always posts exactly one Discord summary; records today's date.  The
summary's text (the per-category statistics) affects neither state nor
effect counts and is elided. -/
def weekly_analytics (today : Int) (_fetch : ApiResult (List Int))
    (st : GateState) : GateState × Effects :=
  if today.emod 7 ≠ 0 then (st, Effects.zero)
  else if st.last_analytics_date = some today then (st, Effects.zero)
  else (⟨st.last_schedule_check_date, some today⟩, ⟨1, [], [], 1⟩)

/-! Section: Claims about the resolver, poll loop and gates -/

/-- C7: for christmas-annual, the filename is
`<year> Christmas At Carbondale.mp4` when that exact file is absent from the
destination directory, else `<year> Christmas At Carbondale Service N.mp4`
with N = (count of existing .mp4 files whose name starts with the base) + 1;
with exactly the 2025 base file present, a second 2025 event resolves to
`2025 Christmas At Carbondale Service 2.mp4`. -/
theorem C7_christmas_numbering (files : List (List Char)) (year : Int) :
    (((intStr year ++ " Christmas At Carbondale".data) ++ ".mp4".data) ∉ files →
      compute_christmas_at_carbondale_filename files year =
        (intStr year ++ " Christmas At Carbondale".data) ++ ".mp4".data) ∧
    (((intStr year ++ " Christmas At Carbondale".data) ++ ".mp4".data) ∈ files →
      compute_christmas_at_carbondale_filename files year =
        (intStr year ++ " Christmas At Carbondale".data) ++ " Service ".data
          ++ intStr (((files.filter fun f =>
              (intStr year ++ " Christmas At Carbondale".data).isPrefixOf f
                && isMp4 f).length : Int) + 1) ++ ".mp4".data) ∧
    compute_christmas_at_carbondale_filename
      ["2025 Christmas At Carbondale.mp4".data] 2025 =
      "2025 Christmas At Carbondale Service 2.mp4".data := by
  refine ⟨fun h => ?_, fun h => ?_, by decide⟩
  · simp only [compute_christmas_at_carbondale_filename]
    rw [if_pos h]
  · simp only [compute_christmas_at_carbondale_filename]
    rw [if_neg (not_not.mpr h)]
    norm_cast

/-- Witness for C7 with the base file absent. -/
theorem C7_christmas_numbering_witness :
    compute_christmas_at_carbondale_filename ["other.mp4".data] 2025 =
      (intStr 2025 ++ " Christmas At Carbondale".data) ++ ".mp4".data :=
  (C7_christmas_numbering ["other.mp4".data] 2025).1 (by decide)

/-- C10: when the un-numbered base file is absent, the resolver returns the
base filename even when numbered `Service N` files are present; numbered
names appear only when the base file exists, and the count then includes the
previously numbered files (every matching .mp4 is counted). -/
theorem C10_christmas_base_gate (files : List (List Char)) (year : Int) :
    (((intStr year ++ " Christmas At Carbondale".data) ++ ".mp4".data) ∉ files →
      compute_christmas_at_carbondale_filename files year =
        (intStr year ++ " Christmas At Carbondale".data) ++ ".mp4".data) ∧
    compute_christmas_at_carbondale_filename
      ["2025 Christmas At Carbondale Service 2.mp4".data] 2025 =
      "2025 Christmas At Carbondale.mp4".data ∧
    compute_christmas_at_carbondale_filename
      ["2025 Christmas At Carbondale.mp4".data,
        "2025 Christmas At Carbondale Service 2.mp4".data] 2025 =
      "2025 Christmas At Carbondale Service 3.mp4".data := by
  refine ⟨fun h => ?_, by decide, by decide⟩
  simp only [compute_christmas_at_carbondale_filename]
  rw [if_pos h]

/-- Witness for C10: base absent but a numbered file present still yields the
base filename. -/
theorem C10_christmas_base_gate_witness :
    compute_christmas_at_carbondale_filename
      ["2025 Christmas At Carbondale Service 4.mp4".data] 2025 =
      (intStr 2025 ++ " Christmas At Carbondale".data) ++ ".mp4".data :=
  (C10_christmas_base_gate ["2025 Christmas At Carbondale Service 4.mp4".data]
    2025).1 (by decide)

/-- C9: the daily schedule-gap gate and the weekly analytics gate make a
second invocation on the same local calendar date a no-op that returns the
state unchanged with no effects, so the remote lookup and the notification
happen at most once per date. -/
theorem C9_daily_weekly_gates (today : Int) (f1 f2 : ApiResult (List Int))
    (st : GateState) :
    (st.last_schedule_check_date = some today →
      check_expected_schedule today f1 st = (st, Effects.zero)) ∧
    check_expected_schedule today f2 (check_expected_schedule today f1 st).1 =
      ((check_expected_schedule today f1 st).1, Effects.zero) ∧
    (check_expected_schedule today f1 st).2.apiCalls ≤ 1 ∧
    (check_expected_schedule today f1 st).2.notifs ≤ 1 ∧
    (st.last_analytics_date = some today →
      weekly_analytics today f1 st = (st, Effects.zero)) ∧
    weekly_analytics today f2 (weekly_analytics today f1 st).1 =
      ((weekly_analytics today f1 st).1, Effects.zero) ∧
    (weekly_analytics today f1 st).2.apiCalls ≤ 1 ∧
    (weekly_analytics today f1 st).2.notifs ≤ 1 := by
  have hd : ∀ (f : ApiResult (List Int)) (s : GateState),
      s.last_schedule_check_date = some today →
      check_expected_schedule today f s = (s, Effects.zero) := by
    intro f s hs
    simp [check_expected_schedule, hs]
  have hw : ∀ (f : ApiResult (List Int)) (s : GateState),
      ¬today.emod 7 = 0 ∨ s.last_analytics_date = some today →
      weekly_analytics today f s = (s, Effects.zero) := by
    intro f s hs
    rcases hs with hs | hs
    · simp [weekly_analytics, hs]
    · by_cases hm : today.emod 7 = 0
      · simp [weekly_analytics, hm, hs]
      · simp [weekly_analytics, hm]
  refine ⟨hd f1 st, ?_, ?_, ?_, fun h => hw f1 st (Or.inr h), ?_, ?_, ?_⟩
  · refine hd f2 _ ?_
    by_cases h : st.last_schedule_check_date = some today <;>
      simp [check_expected_schedule, h]
  · by_cases h : st.last_schedule_check_date = some today <;>
      simp [check_expected_schedule, h, Effects.zero]
  · by_cases h : st.last_schedule_check_date = some today
    · simp [check_expected_schedule, h, Effects.zero]
    · simp only [check_expected_schedule, h, Bool.false_eq_true, if_false,
        if_neg h]
      split <;> simp
  · refine hw f2 _ ?_
    by_cases hm : today.emod 7 = 0
    · by_cases h : st.last_analytics_date = some today
      · exact Or.inr (by simp [weekly_analytics, hm, h])
      · exact Or.inr (by simp [weekly_analytics, hm, h])
    · exact Or.inl hm
  · by_cases hm : today.emod 7 = 0 <;>
      by_cases h : st.last_analytics_date = some today <;>
      simp [weekly_analytics, hm, h, Effects.zero]
  · by_cases hm : today.emod 7 = 0 <;>
      by_cases h : st.last_analytics_date = some today <;>
      simp [weekly_analytics, hm, h, Effects.zero]

/-- Witness for C9 on an already-checked date. -/
theorem C9_daily_weekly_gates_witness :
    check_expected_schedule 0 ApiResult.netError ⟨some 0, some 0⟩ =
      (⟨some 0, some 0⟩, Effects.zero) :=
  (C9_daily_weekly_gates 0 ApiResult.netError ApiResult.netError
    ⟨some 0, some 0⟩).1 (by decide)

/-- C8: the poll loop leaves the poll state only when the status is exactly
"ready" (the file is downloaded, the job becomes Downloaded) or the status
begins with "failed" (the job becomes Failed with nothing written and the
ledger unchanged); every other status keeps the loop polling after any
number of polls (no timeout), and a failed job ends there for this run —
the loop breaks and the run moves on to the next broadcast. -/
theorem C8_poll_transitions (job : BroadcastJob) (outfile : Path)
    (disk : List Path) (ledger : List (List Char × Path)) (rid : List Char) :
    (∀ status, poll_step status = PollStep.downloadNow ↔
      status = "ready".data) ∧
    (∀ status, poll_step status = PollStep.failNow ↔
      status ≠ "ready".data ∧ List.isPrefixOf "failed".data status = true) ∧
    (∀ status, poll_step status = PollStep.keepPolling ↔
      status ≠ "ready".data ∧ List.isPrefixOf "failed".data status = false) ∧
    (∀ statuses : Nat → List Char,
      (∀ j, poll_step (statuses j) = PollStep.keepPolling) →
      ∀ n, pollFirst statuses n = none) ∧
    (∀ fuel i eff,
      (∀ j, ∃ s, job.pollResps j = ApiResult.ok s ∧
        poll_step s = PollStep.keepPolling) →
      ∃ e, pollLoop job outfile disk ledger rid fuel i eff =
        StepResult.hung e) ∧
    (∀ fuel i eff s, job.pollResps i = ApiResult.ok s → s = "ready".data →
      job.downloadResp = ApiResult.ok () →
      pollLoop job outfile disk ledger rid (fuel + 1) i eff =
        StepResult.done (outfile :: disk) ((rid, outfile) :: ledger)
          ⟨eff.apiCalls + 1 + 1, eff.exports, eff.writes ++ [outfile],
            eff.notifs⟩ Outcome.downloaded) ∧
    (∀ fuel i eff s, job.pollResps i = ApiResult.ok s →
      poll_step s = PollStep.failNow →
      pollLoop job outfile disk ledger rid (fuel + 1) i eff =
        StepResult.done disk ledger
          ⟨eff.apiCalls + 1, eff.exports, eff.writes, eff.notifs⟩
          Outcome.pollFailed) ∧
    (∀ cutoff fuel dk lg eff outs rest d l e,
      processBroadcast cutoff fuel dk lg job =
        StepResult.done d l e Outcome.pollFailed →
      runJobs cutoff fuel dk lg eff outs (job :: rest) =
        runJobs cutoff fuel d l (eff.add e) (Outcome.pollFailed :: outs) rest) := by
  refine ⟨?_, ?_, ?_, ?_, ?_, ?_, ?_, ?_⟩
  · intro status
    by_cases h1 : status = "ready".data
    · simp [poll_step, h1]
    · by_cases h2 : List.isPrefixOf "failed".data status <;>
        simp [poll_step, h1, h2]
  · intro status
    by_cases h1 : status = "ready".data
    · simp [poll_step, h1]
    · by_cases h2 : List.isPrefixOf "failed".data status <;>
        simp [poll_step, h1, h2]
  · intro status
    by_cases h1 : status = "ready".data
    · simp [poll_step, h1]
    · by_cases h2 : List.isPrefixOf "failed".data status <;>
        simp [poll_step, h1, h2]
  · intro statuses h n
    induction n with
    | zero => rfl
    | succ n ih => simp [pollFirst, ih, h n]
  · intro fuel
    induction fuel with
    | zero => intro i eff _; exact ⟨eff, rfl⟩
    | succ fuel ih =>
      intro i eff h
      obtain ⟨s, hs, hks⟩ := h i
      simpa [pollLoop, hs, hks] using ih (i + 1)
        ⟨eff.apiCalls + 1, eff.exports, eff.writes, eff.notifs⟩ h
  · intro fuel i eff s hp hs hdl
    subst hs
    simp [pollLoop, hp, hdl, poll_step]
  · intro fuel i eff s hp hfail
    simp [pollLoop, hp, hfail]
  · intro cutoff fuel dk lg eff outs rest d l e h
    simp [runJobs, h]

/-- Witness for C8: a stream of "processing" statuses keeps the loop running
after 4 polls. -/
theorem C8_poll_transitions_witness :
    ∃ e, pollLoop
      ⟨"X".data, 0, none, ApiResult.ok (some "r".data), ApiResult.ok (),
        (fun _ => ApiResult.ok "processing".data), ApiResult.ok ()⟩
      (BASE_DIR, "f.mp4".data) [] [] "r".data 4 0 Effects.zero =
      StepResult.hung e :=
  (C8_poll_transitions
    ⟨"X".data, 0, none, ApiResult.ok (some "r".data), ApiResult.ok (),
      (fun _ => ApiResult.ok "processing".data), ApiResult.ok ()⟩
    (BASE_DIR, "f.mp4".data) [] [] "r".data).2.2.2.2.1 4 0 Effects.zero
    (fun _ => ⟨"processing".data, rfl, by decide⟩)

/-! Section: Inversion lemmas for the per-broadcast step -/

theorem pollLoop_done_cases (job : BroadcastJob) (outfile : Path)
    (disk : List Path) (ledger : List (List Char × Path)) (rid : List Char) :
    ∀ fuel i eff d l e out,
    pollLoop job outfile disk ledger rid fuel i eff =
      StepResult.done d l e out →
    (out = Outcome.downloaded ∧ d = outfile :: disk ∧
      l = (rid, outfile) :: ledger) ∨
    (out = Outcome.pollFailed ∧ d = disk ∧ l = ledger) := by
  intro fuel
  induction fuel with
  | zero =>
    intro i eff d l e out h
    exact absurd h (by simp [pollLoop])
  | succ fuel ih =>
    intro i eff d l e out h
    simp only [pollLoop] at h
    split at h
    · exact StepResult.noConfusion h
    · exact StepResult.noConfusion h
    · split at h
      · split at h
        · injection h with h1 h2 h3 h4
          exact Or.inl ⟨h4.symm, h1.symm, h2.symm⟩
        · exact StepResult.noConfusion h
        · exact StepResult.noConfusion h
      · injection h with h1 h2 h3 h4
        exact Or.inr ⟨h4.symm, h1.symm, h2.symm⟩
      · exact ih _ _ _ _ _ _ h

/-- A step result that re-issued no export request, wrote no file, and left
disk and ledger unchanged. -/
def noExportStep (disk : List Path) (ledger : List (List Char × Path)) :
    StepResult → Prop
  | StepResult.done d l e _ =>
    d = disk ∧ l = ledger ∧ e.exports = [] ∧ e.writes = []
  | StepResult.aborted _ => False
  | StepResult.hung _ => False

theorem noExportStep_elim {disk : List Path}
    {ledger : List (List Char × Path)} {res : StepResult}
    (h : noExportStep disk ledger res) :
    ∃ e out, res = StepResult.done disk ledger e out ∧
      e.exports = [] ∧ e.writes = [] := by
  cases res with
  | done d l e o =>
    obtain ⟨h1, h2, h3, h4⟩ := h
    exact ⟨e, o, by rw [h1, h2], h3, h4⟩
  | aborted e => exact absurd h (by simp [noExportStep])
  | hung e => exact absurd h (by simp [noExportStep])

theorem processBroadcast_no_export (cutoff : Int) (fuel : Nat)
    (disk : List Path) (ledger : List (List Char × Path)) (job : BroadcastJob)
    (h : job.localStart < cutoff ∨
      pyIn "youth service".data (job.name.map Char.toLower) = true ∨
      (resolveOutfile disk job.name job.localStart job.endOpt).1 ∈ disk ∨
      job.detailResp = ApiResult.ok none ∨
      ∃ rid p, job.detailResp = ApiResult.ok (some rid) ∧
        ledgerLookup ledger rid = some p) :
    noExportStep disk ledger (processBroadcast cutoff fuel disk ledger job) := by
  by_cases hc : job.localStart < cutoff
  · simp [processBroadcast, hc, noExportStep, Effects.zero]
  by_cases hy : pyIn "youth service".data (job.name.map Char.toLower) = true
  · simp [processBroadcast, hc, hy, noExportStep, Effects.zero]
  by_cases hdisk :
    (resolveOutfile disk job.name job.localStart job.endOpt).1 ∈ disk
  · simp only [processBroadcast, if_neg hc, hy, Bool.false_eq_true, if_false,
      if_pos hdisk, noExportStep]
    refine ⟨by first | rfl | trivial, by first | rfl | trivial, ?_, ?_⟩ <;>
      (split <;> rfl)
  rcases h with hc' | hy' | hdisk' | hnone | ⟨rid, p, hdet, hlook⟩
  · exact absurd hc' hc
  · exact absurd hy' hy
  · exact absurd hdisk' hdisk
  · simp only [processBroadcast, if_neg hc, hy, Bool.false_eq_true, if_false,
      if_neg hdisk, hnone]
    refine ⟨rfl, rfl, ?_, ?_⟩ <;> (split <;> rfl)
  · simp only [processBroadcast, if_neg hc, hy, Bool.false_eq_true, if_false,
      if_neg hdisk, hdet, hlook]
    refine ⟨rfl, rfl, ?_, ?_⟩ <;> (split <;> rfl)

theorem processBroadcast_done_inv (cutoff : Int) (fuel : Nat)
    (disk : List Path) (ledger : List (List Char × Path)) (job : BroadcastJob)
    (d : List Path) (l : List (List Char × Path)) (e : Effects) (out : Outcome)
    (h : processBroadcast cutoff fuel disk ledger job =
      StepResult.done d l e out)
    (hne1 : out ≠ Outcome.exportFailed) (hne2 : out ≠ Outcome.pollFailed) :
    (d = disk ∧ l = ledger ∧
      (job.localStart < cutoff ∨
        pyIn "youth service".data (job.name.map Char.toLower) = true ∨
        (resolveOutfile disk job.name job.localStart job.endOpt).1 ∈ disk ∨
        job.detailResp = ApiResult.ok none ∨
        ∃ rid p, job.detailResp = ApiResult.ok (some rid) ∧
          ledgerLookup ledger rid = some p)) ∨
    (out = Outcome.downloaded ∧
      ∃ rid, job.detailResp = ApiResult.ok (some rid) ∧
        d = (resolveOutfile disk job.name job.localStart job.endOpt).1 :: disk ∧
        l = (rid, (resolveOutfile disk job.name job.localStart job.endOpt).1)
          :: ledger) := by
  simp only [processBroadcast] at h
  split at h
  · next hc =>
    injection h with h1 h2 h3 h4
    exact Or.inl ⟨h1.symm, h2.symm, Or.inl hc⟩
  · next hc =>
    split at h
    · next hy =>
      injection h with h1 h2 h3 h4
      exact Or.inl ⟨h1.symm, h2.symm, Or.inr (Or.inl hy)⟩
    · next hy =>
      split at h
      · next hdisk =>
        injection h with h1 h2 h3 h4
        exact Or.inl ⟨h1.symm, h2.symm, Or.inr (Or.inr (Or.inl hdisk))⟩
      · next hdisk =>
        split at h
        · exact StepResult.noConfusion h
        · exact StepResult.noConfusion h
        · next hdet =>
          injection h with h1 h2 h3 h4
          exact Or.inl ⟨h1.symm, h2.symm,
            Or.inr (Or.inr (Or.inr (Or.inl hdet)))⟩
        · next rid hdet =>
          split at h
          · next p hlook =>
            injection h with h1 h2 h3 h4
            exact Or.inl ⟨h1.symm, h2.symm,
              Or.inr (Or.inr (Or.inr (Or.inr ⟨rid, p, hdet, hlook⟩)))⟩
          · next hlook =>
            split at h
            · rcases pollLoop_done_cases job _ disk ledger rid _ _ _ _ _ _ _ h
                with ⟨ho, hd, hlg⟩ | ⟨ho, _, _⟩
              · exact Or.inr ⟨ho, rid, hdet, hd, hlg⟩
              · exact absurd ho hne2
            · next code =>
              split at h
              · rcases pollLoop_done_cases job _ disk ledger rid _ _ _ _ _ _ _
                  h with ⟨ho, hd, hlg⟩ | ⟨ho, _, _⟩
                · exact Or.inr ⟨ho, rid, hdet, hd, hlg⟩
                · exact absurd ho hne2
              · injection h with h1 h2 h3 h4
                exact absurd h4.symm hne1
            · exact StepResult.noConfusion h

/-! Section: C1: idempotency guards -/

/-- C1 counterexample: with the recording id already in the ledger and the
destination absent from disk, the step still performs the broadcast-detail
API call (one API call, not zero) before the ledger skip; and after a failed
poll the ledger is unchanged, so a second identical run issues the export
POST for the same recording id again (each run's export list is
`["rid2"]`). -/
theorem C1_counterexample :
    processBroadcast 0 5 [] [("rid1".data, (BASE_DIR, "x".data))]
      ⟨"Morning Worship".data, 6 * 1440 + 540, none,
        ApiResult.ok (some "rid1".data), ApiResult.ok (),
        (fun _ => ApiResult.ok "ready".data), ApiResult.ok ()⟩ =
      StepResult.done [] [("rid1".data, (BASE_DIR, "x".data))]
        ⟨1, [], [], 0⟩ Outcome.skippedLedger ∧
    (1 : Nat) ≠ 0 ∧
    processBroadcast 0 5 [] []
      ⟨"Morning Worship".data, 6 * 1440 + 540, none,
        ApiResult.ok (some "rid2".data), ApiResult.ok (),
        (fun _ => ApiResult.ok "failed: transcode error".data),
        ApiResult.ok ()⟩ =
      StepResult.done [] [] ⟨3, ["rid2".data], [], 0⟩ Outcome.pollFailed ∧
    (["rid2".data] : List (List Char)) ≠ [] := by
  refine ⟨by decide, by decide, by decide, by decide⟩

/-- C1 (amended): a broadcast whose resolved destination already exists on
disk is skipped with no API calls at all, even absent a ledger entry; a
recording id already mapped in the ledger is skipped before the export
request — no export request, no write — though after the single
broadcast-detail API call; and a second run of the step, when the first run
completed the download or skipped, issues no export request and no file
write for that recording (after a failed first run the export POST is
re-issued, which the conflict-tolerant server side deduplicates). -/
theorem C1_idempotency_guards (cutoff : Int) (fuel : Nat) (disk : List Path)
    (ledger : List (List Char × Path)) (job : BroadcastJob) :
    (¬job.localStart < cutoff →
      pyIn "youth service".data (job.name.map Char.toLower) = false →
      (resolveOutfile disk job.name job.localStart job.endOpt).1 ∈ disk →
      ∃ e, processBroadcast cutoff fuel disk ledger job =
        StepResult.done disk ledger e Outcome.skippedDisk ∧
        e.apiCalls = 0 ∧ e.exports = [] ∧ e.writes = []) ∧
    (∀ rid p, ¬job.localStart < cutoff →
      pyIn "youth service".data (job.name.map Char.toLower) = false →
      (resolveOutfile disk job.name job.localStart job.endOpt).1 ∉ disk →
      job.detailResp = ApiResult.ok (some rid) →
      ledgerLookup ledger rid = some p →
      ∃ e, processBroadcast cutoff fuel disk ledger job =
        StepResult.done disk ledger e Outcome.skippedLedger ∧
        e.apiCalls = 1 ∧ e.exports = [] ∧ e.writes = []) ∧
    (∀ d1 l1 e1 out1,
      processBroadcast cutoff fuel disk ledger job =
        StepResult.done d1 l1 e1 out1 →
      out1 ≠ Outcome.exportFailed → out1 ≠ Outcome.pollFailed →
      ∃ e2 out2, processBroadcast cutoff fuel d1 l1 job =
        StepResult.done d1 l1 e2 out2 ∧ e2.exports = [] ∧ e2.writes = []) := by
  refine ⟨fun hc hy hdisk => ?_, fun rid p hc hy hdisk hdet hlook => ?_,
    fun d1 l1 e1 out1 h hne1 hne2 => ?_⟩
  · simp only [processBroadcast, if_neg hc, hy, Bool.false_eq_true, if_false,
      if_pos hdisk]
    exact ⟨_, rfl, by split <;> rfl, by split <;> rfl, by split <;> rfl⟩
  · simp only [processBroadcast, if_neg hc, hy, Bool.false_eq_true, if_false,
      if_neg hdisk, hdet, hlook]
    exact ⟨_, rfl, by split <;> rfl, by split <;> rfl, by split <;> rfl⟩
  · rcases processBroadcast_done_inv cutoff fuel disk ledger job d1 l1 e1 out1
      h hne1 hne2 with ⟨hd, hl, cond⟩ | ⟨_, rid, hdet, hd, hl⟩
    · rw [hd, hl]
      exact noExportStep_elim
        (processBroadcast_no_export cutoff fuel disk ledger job cond)
    · rw [hd, hl]
      refine noExportStep_elim
        (processBroadcast_no_export cutoff fuel _ _ job (Or.inr (Or.inr
          (Or.inr (Or.inr ⟨rid,
            (resolveOutfile disk job.name job.localStart job.endOpt).1, hdet,
            ?_⟩)))))
      simp [ledgerLookup]

/-- Witness for C1: the ledger-keyed skip at a concrete input. -/
theorem C1_idempotency_guards_witness :
    ∃ e, processBroadcast 0 5 [] [("ridw".data, (BASE_DIR, "x".data))]
      ⟨"Morning Worship".data, 6 * 1440 + 540, none,
        ApiResult.ok (some "ridw".data), ApiResult.ok (),
        (fun _ => ApiResult.ok "ready".data), ApiResult.ok ()⟩ =
      StepResult.done [] [("ridw".data, (BASE_DIR, "x".data))] e
        Outcome.skippedLedger ∧
      e.apiCalls = 1 ∧ e.exports = [] ∧ e.writes = [] :=
  (C1_idempotency_guards 0 5 [] [("ridw".data, (BASE_DIR, "x".data))]
    ⟨"Morning Worship".data, 6 * 1440 + 540, none,
      ApiResult.ok (some "ridw".data), ApiResult.ok (),
      (fun _ => ApiResult.ok "ready".data), ApiResult.ok ()⟩).2.1
    "ridw".data (BASE_DIR, "x".data) (by decide) (by decide) (by decide) rfl
    (by simp [ledgerLookup])

/-! Section: C2: error handling -/

/-- C2 counterexample: one broadcast whose first poll raises a network error
aborts the whole run — the next broadcast is never processed and no summary
notification is sent (`notifs = 0`) — contradicting "the run continues with
the next item" and "always completes to a summary". -/
theorem C2_counterexample :
    mainRun 0 5 [] [] (ApiResult.ok
      [⟨"Morning Worship".data, 6 * 1440 + 540, none,
          ApiResult.ok (some "rid3".data), ApiResult.ok (),
          (fun _ => ApiResult.netError), ApiResult.ok ()⟩,
        ⟨"Morning Worship".data, 6 * 1440 + 540, none,
          ApiResult.ok (some "rid4".data), ApiResult.ok (),
          (fun _ => ApiResult.ok "ready".data), ApiResult.ok ()⟩]) =
      RunResult.aborted ⟨4, ["rid3".data], [], 0⟩ ∧
    (⟨4, ["rid3".data], [], 0⟩ : Effects).notifs = 0 := by
  refine ⟨by decide, rfl⟩

/-- C2 (amended): only the export POST tolerates HTTP errors — a 409
proceeds, any other HTTP code abandons just that broadcast and the run
continues — while the listing call, the detail fetch, the poll and the
download are not wrapped in try/except, so a network failure there aborts
the whole run with no summary notification and the remaining broadcasts
unprocessed; a run that does reach the end of the list always emits the
summary notification. -/
theorem C2_error_handling (cutoff : Int) (fuel : Nat) (disk : List Path)
    (ledger : List (List Char × Path)) (job : BroadcastJob) :
    (∀ k, mainRun cutoff fuel disk ledger (ApiResult.httpError k) =
      RunResult.aborted ⟨1, [], [], 0⟩) ∧
    mainRun cutoff fuel disk ledger ApiResult.netError =
      RunResult.aborted ⟨1, [], [], 0⟩ ∧
    (∀ rid code, ¬job.localStart < cutoff →
      pyIn "youth service".data (job.name.map Char.toLower) = false →
      (resolveOutfile disk job.name job.localStart job.endOpt).1 ∉ disk →
      job.detailResp = ApiResult.ok (some rid) →
      ledgerLookup ledger rid = none →
      job.exportResp = ApiResult.httpError code → ¬code = 409 →
      ∃ e, processBroadcast cutoff fuel disk ledger job =
        StepResult.done disk ledger e Outcome.exportFailed ∧
        e.exports = [rid] ∧ e.writes = []) ∧
    (∀ rid, ¬job.localStart < cutoff →
      pyIn "youth service".data (job.name.map Char.toLower) = false →
      (resolveOutfile disk job.name job.localStart job.endOpt).1 ∉ disk →
      job.detailResp = ApiResult.ok (some rid) →
      ledgerLookup ledger rid = none →
      job.exportResp = ApiResult.ok () →
      job.pollResps 0 = ApiResult.netError →
      ∃ e, processBroadcast cutoff (fuel + 1) disk ledger job =
        StepResult.aborted e) ∧
    (∀ eff outs d l e o rest,
      processBroadcast cutoff fuel disk ledger job =
        StepResult.done d l e o →
      runJobs cutoff fuel disk ledger eff outs (job :: rest) =
        runJobs cutoff fuel d l (eff.add e) (o :: outs) rest) ∧
    (∀ eff outs e rest,
      processBroadcast cutoff fuel disk ledger job = StepResult.aborted e →
      runJobs cutoff fuel disk ledger eff outs (job :: rest) =
        RunResult.aborted (eff.add e)) ∧
    (∀ eff outs, runJobs cutoff fuel disk ledger eff outs [] =
      RunResult.finished disk ledger (eff.add ⟨0, [], [], 1⟩) outs.reverse) := by
  refine ⟨fun k => rfl, rfl, fun rid code hc hy hdisk hdet hlook hexp h409 => ?_,
    fun rid hc hy hdisk hdet hlook hexp hpoll => ?_,
    fun eff outs d l e o rest h => by simp [runJobs, h],
    fun eff outs e rest h => by simp [runJobs, h], fun eff outs => rfl⟩
  · simp only [processBroadcast, if_neg hc, hy, Bool.false_eq_true, if_false,
      if_neg hdisk, hdet, hlook, hexp, if_neg h409]
    exact ⟨_, rfl, by split <;> rfl, by split <;> rfl⟩
  · simp only [processBroadcast, if_neg hc, hy, Bool.false_eq_true, if_false,
      if_neg hdisk, hdet, hlook, hexp, pollLoop, hpoll]
    exact ⟨_, rfl⟩

/-- Witness for C2: a 500 on the export POST abandons only that broadcast. -/
theorem C2_error_handling_witness :
    ∃ e, processBroadcast 0 5 [] []
      ⟨"Morning Worship".data, 6 * 1440 + 540, none,
        ApiResult.ok (some "rid5".data), ApiResult.httpError 500,
        (fun _ => ApiResult.ok "ready".data), ApiResult.ok ()⟩ =
      StepResult.done [] [] e Outcome.exportFailed ∧
      e.exports = ["rid5".data] ∧ e.writes = [] :=
  (C2_error_handling 0 5 [] []
    ⟨"Morning Worship".data, 6 * 1440 + 540, none,
      ApiResult.ok (some "rid5".data), ApiResult.httpError 500,
      (fun _ => ApiResult.ok "ready".data), ApiResult.ok ()⟩).2.2.1
    "rid5".data 500 (by decide) (by decide) (by decide) rfl rfl rfl (by decide)

end Boxcast
